import Mathlib

/-!
servercompass-go-gin-demo: environment resolver, dotenv loader and handlers.

A shallow embedding of `main.go`.

* Go strings are modelled as lists of Unicode scalar values (`Str`), i.e. as
  well-formed UTF-8 text.
* The process environment is the map kept by package `syscall` (Unix):
  a partial map from keys to values.
* The standard-library functions called by `main.go` (`strings.TrimSpace`,
  `strings.HasPrefix`, `strings.SplitN`, `bufio.Scanner` with its default
  `ScanLines` split function and token limit, `os.Getenv`, `os.LookupEnv`,
  `os.Setenv`) are modelled after their documented behaviour.
-/

namespace ServerCompass

/-! ## Strings -/

/-- Go `string`, as a sequence of Unicode scalar values. -/
abbrev Str := List Char

/-- Go `unicode.IsSpace`: the code points with the Unicode White_Space property. -/
def isSpace (c : Char) : Bool :=
  let n := c.toNat
  (0x09 ≤ n && n ≤ 0x0D) || n == 0x20 || n == 0x85 || n == 0xA0 || n == 0x1680 ||
  (0x2000 ≤ n && n ≤ 0x200A) || n == 0x2028 || n == 0x2029 || n == 0x202F ||
  n == 0x205F || n == 0x3000

/-- Leading white space removed (`strings.TrimLeftFunc s unicode.IsSpace`). -/
def TrimLeft (s : Str) : Str := s.dropWhile isSpace

/-- Trailing white space removed (`strings.TrimRightFunc s unicode.IsSpace`). -/
def TrimRight (s : Str) : Str := (s.reverse.dropWhile isSpace).reverse

/-- Go `strings.TrimSpace`: all leading and trailing white space removed. -/
def TrimSpace (s : Str) : Str := TrimRight (TrimLeft s)

/-- Go `strings.HasPrefix`. -/
def HasPrefix (s pre : Str) : Bool := pre.isPrefixOf s

/-- Go `strings.SplitN s sep 2` for a one-character separator: the text before
the first separator and the text after it, or the whole text alone when the
separator does not occur. -/
def SplitN2 (sep : Char) : Str → List Str
  | [] => [[]]
  | c :: cs =>
    if c = sep then [[], cs]
    else
      match SplitN2 sep cs with
      | [p0, p1] => [c :: p0, p1]
      | _ => [c :: cs]

/-! ## Process environment -/

/-- The environment map of the process: key to value. -/
abbrev Env := Str → Option Str

/-- Go `os.LookupEnv` (`syscall.Getenv`): the value and whether the key is
present; the empty key is never found. -/
def LookupEnv (env : Env) (key : Str) : Option Str :=
  if key = [] then none else env key

/-- Go `os.Getenv`: the value, or the empty string when the key is not present. -/
def Getenv (env : Env) (key : Str) : Str :=
  match LookupEnv env key with
  | some v => v
  | none => []

/-- The NUL character. -/
def NUL : Char := Char.ofNat 0

/-- Go `os.Setenv` (`syscall.Setenv`): fails with EINVAL (`none`) when the key
is empty, when the key contains `=` or NUL, or when the value contains NUL;
otherwise binds the key to the value. -/
def Setenv (env : Env) (key value : Str) : Option Env :=
  if key = [] then none
  else if key.any (fun c => c == '=' || c == NUL) then none
  else if value.any (fun c => c == NUL) then none
  else some (fun k => if k = key then some value else env k)

/-- A concrete environment given by a list of bindings (first binding of a key wins). -/
def envOf (bindings : List (Str × Str)) : Env :=
  fun k => (bindings.find? (fun b => decide (b.1 = k))).map (fun b => b.2)

/-! ## envValue -/

/-- The sentinel display string. -/
def NotSet : Str := "Not set".toList

/-- Source `envValue`: the trimmed environment value, or "Not set" when that is empty. -/
def envValue (env : Env) (key : Str) : Str :=
  let value := TrimSpace (Getenv env key)
  if value = [] then NotSet else value

/-! ## bufio.Scanner -/

/-- Go `bufio.MaxScanTokenSize`. -/
def MaxScanTokenSize : Nat := 64 * 1024

/-- Length in bytes of the UTF-8 encoding of a text. -/
def utf8Len (s : Str) : Nat := (s.map Char.utf8Size).sum

/-- The lines of a text: the pieces between newline characters; a final piece
without newline counts when it is not empty (`bufio.ScanLines`, before the
carriage return is dropped). -/
def rawLines : Str → List Str
  | [] => []
  | c :: cs =>
    if c = '\n' then [] :: rawLines cs
    else
      match rawLines cs with
      | [] => [[c]]
      | l :: ls => (c :: l) :: ls

/-- Go `bufio` `dropCR`: one trailing carriage return removed. -/
def dropCR (l : Str) : Str :=
  if l.getLast? = some '\r' then l.dropLast else l

/-- A line fits the scanner's buffer when it is shorter than `MaxScanTokenSize`
bytes; at the first line that does not fit, `Scan` reports `ErrTooLong` and
returns false. -/
def tokenFits (l : Str) : Bool := decide (utf8Len l < MaxScanTokenSize)

/-- The tokens delivered by the successive `scanner.Scan()` / `scanner.Text()`
calls on a file with the given content. -/
def scannerTokens (content : Str) : List Str :=
  ((rawLines content).takeWhile tokenFits).map dropCR

/-! ## loadDotEnv -/

/-- The body of the `for scanner.Scan()` loop of `loadDotEnv` on one token. -/
def loadDotEnvStep (env : Env) (text : Str) : Env :=
  let line := TrimSpace text
  if line = [] ∨ HasPrefix line ['#'] = true then env
  else
    match SplitN2 '=' line with
    | [p0, p1] =>
      let key := TrimSpace p0
      let value := TrimSpace p1
      if key = [] then env
      else
        match LookupEnv env key with
        | some _ => env
        | none =>
          match Setenv env key value with
          | some env' => env'
          | none => env
    | _ => env

/-- Source `loadDotEnv`. The file is `none` when `os.Open` fails and
`some content` when it can be read. -/
def loadDotEnv (file : Option Str) (env : Env) : Env :=
  match file with
  | none => env
  | some content => (scannerTokens content).foldl loadDotEnvStep env

/-! ## HTTP handlers -/

/-- Source `EnvItem`. -/
structure EnvItem where
  Key : Str
  Value : Str
  deriving DecidableEq, Repr

/-- Source `publicKeys`. -/
def publicKeys : List Str :=
  ["APP_NAME".toList, "API_URL".toList, "ENVIRONMENT".toList, "VERSION".toList]

/-- The loop shared by both handlers: one item appended per key. -/
def buildItems (env : Env) (keys : List Str) : List EnvItem :=
  keys.foldl (fun items key => items ++ [{ Key := key, Value := envValue env key }]) []

/-- Response of `GET /api/env`: status and the `envs` field of the JSON object. -/
structure JSONResponse where
  status : Nat
  envs : List EnvItem
  deriving DecidableEq, Repr

/-- Handler of `GET /api/env`. -/
def apiEnvHandler (env : Env) : JSONResponse :=
  { status := 200, envs := buildItems env publicKeys }

/-- One `<div class="env">` block of the page: the class and text of its key
element and of its value element. -/
structure EnvDiv where
  keyClass : Str
  keyText : Str
  valueClass : Str
  valueText : Str
  deriving DecidableEq, Repr

/-- The body of `{{ range .envs }}` in `indexTemplate` for one item. -/
def renderItem (item : EnvItem) : EnvDiv :=
  if item.Value = "Not set".toList then
    { keyClass := "key".toList, keyText := item.Key,
      valueClass := "value not-set".toList, valueText := item.Value }
  else
    { keyClass := "key".toList, keyText := item.Key,
      valueClass := "value".toList, valueText := item.Value }

/-- Response of `GET /`: status, page title and the rendered blocks. -/
structure HTMLResponse where
  status : Nat
  title : Str
  envs : List EnvDiv
  deriving DecidableEq, Repr

/-- The items passed to the template by the handler of `GET /`. -/
def indexItems (env : Env) : List EnvItem := buildItems env publicKeys

/-- Handler of `GET /`. -/
def indexHandler (env : Env) : HTMLResponse :=
  { status := 200,
    title := "Server Compass Demo Environment Variables".toList,
    envs := (indexItems env).map renderItem }

/-! ## Vocabulary of the dotenv format -/

/-- The text before the first `=`. -/
def beforeEq (t : Str) : Str := t.takeWhile (fun c => c != '=')

/-- The text after the first `=`. -/
def afterEq (t : Str) : Str := (t.dropWhile (fun c => c != '=')).drop 1

/-- A valid line: after trimming it is not empty, does not start with `#`,
contains `=`, and the trimmed text before the first `=` is not empty. -/
def ValidLine (raw : Str) : Bool :=
  let t := TrimSpace raw
  decide (t ≠ []) && decide (t.head? ≠ some '#') && decide ('=' ∈ t) &&
    decide (TrimSpace (beforeEq t) ≠ [])

/-- The key of a line: the trimmed text before the first `=` of the trimmed line. -/
def lineKey (raw : Str) : Str := TrimSpace (beforeEq (TrimSpace raw))

/-- The value of a line: the trimmed text after the first `=` of the trimmed line. -/
def lineValue (raw : Str) : Str := TrimSpace (afterEq (TrimSpace raw))

/-- An ignored line: blank, or starting with `#`, or without `=`, or with an
empty key before the first `=`. -/
def IgnoredLine (raw : Str) : Bool :=
  let t := TrimSpace raw
  decide (t = []) || decide (t.head? = some '#') || decide ('=' ∉ t) ||
    decide (TrimSpace (beforeEq t) = [])

/-- A file written from lines: every line followed by a newline. -/
def joinLines (ls : List Str) : Str := ls.flatMap (fun l => l ++ ['\n'])

/-- The file with all ignored lines removed. -/
def removeIgnored (content : Str) : Str :=
  joinLines ((rawLines content).filter (fun l => !IgnoredLine l))

/-- A comment line of 65536 bytes. -/
def longComment : Str := '#' :: List.replicate 65535 'x'

/-- Whether `Setenv` accepts the pair: the key is not empty and holds neither `=`
nor NUL, and the value holds no NUL. -/
def settable (k v : Str) : Bool :=
  decide (k ≠ []) && !(k.any (fun c => c == '=' || c == NUL)) && !(v.any (fun c => c == NUL))

/-- The environment with one more binding. -/
def bind (env : Env) (key value : Str) : Env :=
  fun k => if k = key then some value else env k

/-- The empty environment. -/
def emptyEnv : Env := envOf []

/-- A small dotenv file with a comment, a blank line and a repeated key. -/
def demoFile : Str := "# demo\n\nAPI_URL = http://x?a=b\r\nAPI_URL=other\nVERSION=\n".toList

/-- A one-line file whose value holds a NUL character. -/
def nulFile : Str := "KEY=a\x00b".toList

/-- A file whose first line for KEY holds a NUL character and whose second line
assigns KEY again. -/
def nulThenPlainFile : Str := "KEY=\x00\nKEY=1\n".toList

/-- A file that starts with a comment line of 65536 bytes. -/
def longFile : Str := longComment ++ '\n' :: "KEY=1".toList

/-- The property of every valid line taking effect, for one environment and one
file content: each valid line whose key is unbound before the call, and is not
the key of an earlier valid line, leaves the key bound to the value of the line. -/
def SetsValidLines (env : Env) (content : Str) : Prop :=
  ∀ (i : Nat) (raw : Str), (rawLines content)[i]? = some raw → ValidLine raw = true →
    LookupEnv env (lineKey raw) = none →
    (∀ l ∈ (rawLines content).take i, ¬ (ValidLine l = true ∧ lineKey l = lineKey raw)) →
    LookupEnv (loadDotEnv (some content) env) (lineKey raw) = some (lineValue raw)

/-- The property of the first occurrence winning, for one environment and one
file content: the first valid line for a key that is unbound before the call
decides the value of the key, whatever the later lines are. -/
def FirstOccurrenceWins (env : Env) (content : Str) : Prop :=
  ∀ (pre post : List Str) (raw : Str), rawLines content = pre ++ raw :: post →
    ValidLine raw = true →
    (∀ l ∈ pre, ¬ (ValidLine l = true ∧ lineKey l = lineKey raw)) →
    LookupEnv env (lineKey raw) = none →
    LookupEnv (loadDotEnv (some content) env) (lineKey raw) = some (lineValue raw)

/-! ## Evaluation on small inputs -/

theorem TrimSpace_sample : TrimSpace "  a b \t".toList = "a b".toList := by decide

theorem SplitN2_sample :
    SplitN2 '=' "A=b=c".toList = ["A".toList, "b=c".toList] ∧
    SplitN2 '=' "Abc".toList = ["Abc".toList] ∧
    SplitN2 '=' "=".toList = [[], []] := by decide

theorem rawLines_sample :
    rawLines "a\n\nb\r\nc".toList = ["a".toList, [], "b\r".toList, "c".toList] ∧
    rawLines "a\n".toList = ["a".toList] ∧
    scannerTokens "a\n\nb\r\nc".toList = ["a".toList, [], "b".toList, "c".toList] := by decide

theorem ValidLine_sample :
    ValidLine " A = b=c ".toList = true ∧ lineKey " A = b=c ".toList = "A".toList ∧
    lineValue " A = b=c ".toList = "b=c".toList := by decide

theorem IgnoredLine_sample :
    IgnoredLine " # A=1".toList = true ∧ IgnoredLine "=1".toList = true ∧
    IgnoredLine "A".toList = true ∧ IgnoredLine " \t".toList = true ∧
    IgnoredLine "A=".toList = false := by decide

theorem removeIgnored_sample :
    removeIgnored "# c\nA=1\r\n\nB\nC = 2".toList = "A=1\r\nC = 2\n".toList := by decide

theorem loadDotEnv_sample :
    LookupEnv (loadDotEnv (some demoFile) emptyEnv) "API_URL".toList = some "http://x?a=b".toList ∧
    LookupEnv (loadDotEnv (some demoFile) emptyEnv) "VERSION".toList = some [] ∧
    LookupEnv (loadDotEnv (some demoFile) emptyEnv) "APP_NAME".toList = none ∧
    envValue (loadDotEnv (some demoFile) emptyEnv) "VERSION".toList = "Not set".toList := by
  decide

/-! ## Theorems: envValue -/

theorem TrimSpace_nil : TrimSpace [] = [] := rfl

theorem envValue_eq (env : Env) (k : Str) :
    envValue env k =
      match LookupEnv env k with
      | none => NotSet
      | some v => if TrimSpace v = [] then NotSet else TrimSpace v := by
  unfold envValue Getenv
  cases h : LookupEnv env k <;> simp [TrimSpace_nil]

/-- C1 (as stated, refuted): with APP_NAME bound to the text "Not set", envValue
returns "Not set" although the key is set and its value is not empty after
trimming, so "exactly when unset or blank" fails. -/
theorem envValue_sentinel_collision :
    ¬ (envValue (envOf [("APP_NAME".toList, "Not set".toList)]) "APP_NAME".toList = NotSet ↔
        (LookupEnv (envOf [("APP_NAME".toList, "Not set".toList)]) "APP_NAME".toList = none ∨
          ∃ v, LookupEnv (envOf [("APP_NAME".toList, "Not set".toList)]) "APP_NAME".toList = some v ∧
            TrimSpace v = [])) := by
  intro h
  have h1 : envValue (envOf [("APP_NAME".toList, "Not set".toList)]) "APP_NAME".toList = NotSet := by
    decide
  rcases h.mp h1 with h2 | ⟨v, h2, h3⟩
  · exact absurd h2 (by decide)
  · have h4 : LookupEnv (envOf [("APP_NAME".toList, "Not set".toList)]) "APP_NAME".toList =
        some "Not set".toList := by decide
    rw [h4] at h2
    cases h2
    exact absurd h3 (by decide)

/-- C1 (amended): envValue returns "Not set" when the key is unset or its value
is empty after trimming, and the trimmed value in every other case; so it
returns "Not set" exactly when the key is unset, its value is empty after
trimming, or its trimmed value is itself the text "Not set". -/
theorem envValue_spec (env : Env) (k : Str) :
    (envValue env k =
      match LookupEnv env k with
      | none => NotSet
      | some v => if TrimSpace v = [] then NotSet else TrimSpace v) ∧
    (envValue env k = NotSet ↔
      (LookupEnv env k = none ∨
        ∃ v, LookupEnv env k = some v ∧ (TrimSpace v = [] ∨ TrimSpace v = NotSet))) := by
  refine ⟨envValue_eq env k, ?_⟩
  rw [envValue_eq]
  cases h : LookupEnv env k with
  | none => simp
  | some v =>
    by_cases hb : TrimSpace v = []
    · simp [hb]
    · simp [hb]

/-! ## Theorems: handlers -/

theorem buildItems_publicKeys (env : Env) :
    buildItems env publicKeys =
      [ { Key := "APP_NAME".toList, Value := envValue env "APP_NAME".toList },
        { Key := "API_URL".toList, Value := envValue env "API_URL".toList },
        { Key := "ENVIRONMENT".toList, Value := envValue env "ENVIRONMENT".toList },
        { Key := "VERSION".toList, Value := envValue env "VERSION".toList } ] := rfl

theorem buildItems_eq_map (env : Env) (keys : List Str) :
    buildItems env keys = keys.map (fun k => { Key := k, Value := envValue env k }) := by
  have h : ∀ (ks : List Str) (acc : List EnvItem),
      ks.foldl (fun items key => items ++ [{ Key := key, Value := envValue env key }]) acc =
        acc ++ ks.map (fun k => { Key := k, Value := envValue env k }) := by
    intro ks
    induction ks with
    | nil => intro acc; simp
    | cons k ks ih => intro acc; simp [ih]
  simpa [buildItems] using h keys []

theorem envValue_congr (env₁ env₂ : Env) (k : Str) (h : LookupEnv env₁ k = LookupEnv env₂ k) :
    envValue env₁ k = envValue env₂ k := by
  simp [envValue, Getenv, h]

/-- C6: for every environment the list built by the GET /api/env handler has
exactly the four entries APP_NAME, API_URL, ENVIRONMENT, VERSION in that order,
each carrying envValue of its key; with APP_NAME=Compass set, the other three
unset and no .env file, the list is
[APP_NAME: Compass, API_URL: Not set, ENVIRONMENT: Not set, VERSION: Not set]. -/
theorem apiEnv_items :
    (∀ env : Env,
      (apiEnvHandler env).envs =
        [ { Key := "APP_NAME".toList, Value := envValue env "APP_NAME".toList },
          { Key := "API_URL".toList, Value := envValue env "API_URL".toList },
          { Key := "ENVIRONMENT".toList, Value := envValue env "ENVIRONMENT".toList },
          { Key := "VERSION".toList, Value := envValue env "VERSION".toList } ]) ∧
    (apiEnvHandler (loadDotEnv none (envOf [("APP_NAME".toList, "Compass".toList)]))).envs =
        [ { Key := "APP_NAME".toList, Value := "Compass".toList },
          { Key := "API_URL".toList, Value := "Not set".toList },
          { Key := "ENVIRONMENT".toList, Value := "Not set".toList },
          { Key := "VERSION".toList, Value := "Not set".toList } ] := by
  refine ⟨fun env => buildItems_publicKeys env, ?_⟩
  decide

/-- C7: two environments that agree on APP_NAME, API_URL, ENVIRONMENT and VERSION
(same definedness, same value) give equal item lists, and equal responses, for
GET / and for GET /api/env, whatever their other variables hold. -/
theorem handlers_depend_only_on_publicKeys (env₁ env₂ : Env)
    (h : ∀ k ∈ publicKeys, LookupEnv env₁ k = LookupEnv env₂ k) :
    indexItems env₁ = indexItems env₂ ∧
    (apiEnvHandler env₁).envs = (apiEnvHandler env₂).envs ∧
    indexHandler env₁ = indexHandler env₂ ∧
    apiEnvHandler env₁ = apiEnvHandler env₂ := by
  have hb : buildItems env₁ publicKeys = buildItems env₂ publicKeys := by
    rw [buildItems_eq_map, buildItems_eq_map]
    apply List.map_congr_left
    intro k hk
    rw [envValue_congr env₁ env₂ k (h k hk)]
  simp [indexItems, apiEnvHandler, indexHandler, hb]

/-- C7 witness: two environments that differ only on a variable outside the allow-list. -/
theorem handlers_depend_only_on_publicKeys_witness :
    (∀ k ∈ publicKeys,
      LookupEnv (envOf [("APP_NAME".toList, "Compass".toList), ("DB_PASSWORD".toList, "hunter2".toList)]) k =
        LookupEnv (envOf [("APP_NAME".toList, "Compass".toList), ("DB_PASSWORD".toList, "s3cret".toList)]) k) ∧
    (indexItems (envOf [("APP_NAME".toList, "Compass".toList), ("DB_PASSWORD".toList, "hunter2".toList)]) =
        indexItems (envOf [("APP_NAME".toList, "Compass".toList), ("DB_PASSWORD".toList, "s3cret".toList)]) ∧
      (apiEnvHandler (envOf [("APP_NAME".toList, "Compass".toList), ("DB_PASSWORD".toList, "hunter2".toList)])).envs =
        (apiEnvHandler (envOf [("APP_NAME".toList, "Compass".toList), ("DB_PASSWORD".toList, "s3cret".toList)])).envs ∧
      indexHandler (envOf [("APP_NAME".toList, "Compass".toList), ("DB_PASSWORD".toList, "hunter2".toList)]) =
        indexHandler (envOf [("APP_NAME".toList, "Compass".toList), ("DB_PASSWORD".toList, "s3cret".toList)]) ∧
      apiEnvHandler (envOf [("APP_NAME".toList, "Compass".toList), ("DB_PASSWORD".toList, "hunter2".toList)]) =
        apiEnvHandler (envOf [("APP_NAME".toList, "Compass".toList), ("DB_PASSWORD".toList, "s3cret".toList)])) :=
  ⟨by decide, handlers_depend_only_on_publicKeys _ _ (by decide)⟩

/-- C8: in the page rendered by GET / the blocks are, in allow-list order, one per
allow-list key, each showing the key and its display value; the value element
has class "value not-set" exactly when the display value is "Not set", and
class "value" in every other case. -/
theorem index_page_rows (env : Env) :
    (indexHandler env).envs.map (fun d => (d.keyText, d.valueText)) =
      publicKeys.map (fun k => (k, envValue env k)) ∧
    ∀ d ∈ (indexHandler env).envs,
      (d.valueClass = "value not-set".toList ↔ d.valueText = "Not set".toList) ∧
      (d.valueText ≠ "Not set".toList → d.valueClass = "value".toList) := by
  constructor
  · simp only [indexHandler, indexItems, buildItems_eq_map, List.map_map]
    apply List.map_congr_left
    intro k _
    simp only [Function.comp, renderItem]
    split <;> rfl
  · intro d hd
    simp only [indexHandler, List.mem_map] at hd
    obtain ⟨item, _, rfl⟩ := hd
    unfold renderItem
    by_cases hv : item.Value = "Not set".toList
    · simp [hv]
    · rw [if_neg hv]
      have hne : "value".toList ≠ "value not-set".toList := by decide
      exact ⟨⟨fun h => absurd h hne, fun h => absurd h hv⟩, fun _ => rfl⟩

/-! ## Lemmas: strings -/

theorem dropWhile_append_singleton (p : Char → Bool) (xs : Str) (c : Char) :
    (xs ++ [c]).dropWhile p =
      if xs.dropWhile p = [] then (if p c then [] else [c]) else xs.dropWhile p ++ [c] := by
  induction xs with
  | nil => by_cases hp : p c <;> simp [List.dropWhile, hp]
  | cons x xs ih =>
    by_cases hx : p x
    · simp [List.dropWhile_cons, hx, ih]
    · simp [List.dropWhile_cons, hx]

theorem TrimRight_nil : TrimRight [] = [] := rfl

theorem TrimRight_cons (c : Char) (cs : Str) :
    TrimRight (c :: cs) =
      if TrimRight cs = [] then (if isSpace c then [] else [c]) else c :: TrimRight cs := by
  unfold TrimRight
  rw [List.reverse_cons, dropWhile_append_singleton]
  by_cases h : List.dropWhile isSpace cs.reverse = []
  · by_cases hc : isSpace c <;> simp [h, hc]
  · simp [h]

theorem TrimRight_append_space (s : Str) (c : Char) (hc : isSpace c = true) :
    TrimRight (s ++ [c]) = TrimRight s := by
  unfold TrimRight
  simp [List.reverse_append, List.dropWhile_cons, hc]

theorem TrimLeft_TrimRight (s : Str) : TrimLeft (TrimRight s) = TrimRight (TrimLeft s) := by
  induction s with
  | nil => rfl
  | cons c cs ih =>
    by_cases hc : isSpace c
    · have h1 : TrimLeft (c :: cs) = TrimLeft cs := by simp [TrimLeft, hc]
      rw [h1, ← ih, TrimRight_cons]
      by_cases h : TrimRight cs = []
      · simp [h, hc, TrimLeft]
      · simp [h, hc, TrimLeft]
    · have h1 : TrimLeft (c :: cs) = c :: cs := by simp [TrimLeft, hc]
      rw [h1, TrimRight_cons]
      by_cases h : TrimRight cs = []
      · simp [h, hc, TrimLeft]
      · simp [h, hc, TrimLeft]

theorem TrimSpace_eq (s : Str) : TrimSpace s = TrimLeft (TrimRight s) := by
  rw [TrimSpace, TrimLeft_TrimRight]

theorem TrimSpace_append_space (s : Str) (c : Char) (hc : isSpace c = true) :
    TrimSpace (s ++ [c]) = TrimSpace s := by
  rw [TrimSpace_eq, TrimSpace_eq, TrimRight_append_space s c hc]

theorem dropCR_eq (l : Str) : dropCR l = l ∨ l = dropCR l ++ ['\r'] := by
  unfold dropCR
  by_cases h : l.getLast? = some '\r'
  · right
    rw [if_pos h]
    exact (List.dropLast_append_getLast? _ h).symm
  · left
    rw [if_neg h]

theorem TrimSpace_dropCR (l : Str) : TrimSpace (dropCR l) = TrimSpace l := by
  rcases dropCR_eq l with h | h
  · rw [h]
  · conv_rhs => rw [h]
    rw [TrimSpace_append_space _ _ (by decide)]

theorem mem_of_mem_TrimSpace {c : Char} {s : Str} (h : c ∈ TrimSpace s) : c ∈ s := by
  unfold TrimSpace TrimRight TrimLeft at h
  rw [List.mem_reverse] at h
  have h1 := (List.dropWhile_sublist isSpace).subset h
  rw [List.mem_reverse] at h1
  exact (List.dropWhile_sublist isSpace).subset h1

theorem head?_TrimSpace_cons (c : Char) (s : Str) (hc : isSpace c = false) :
    (TrimSpace (c :: s)).head? = some c := by
  have h1 : TrimLeft (c :: s) = c :: s := by simp [TrimLeft, hc]
  rw [TrimSpace, h1, TrimRight_cons]
  by_cases h : TrimRight s = []
  · simp [h, hc]
  · simp [h]

theorem HasPrefix_singleton (s : Str) (c : Char) :
    HasPrefix s [c] = decide (s.head? = some c) := by
  cases s with
  | nil => simp [HasPrefix, List.isPrefixOf]
  | cons x xs =>
    by_cases h : x = c
    · subst h
      simp [HasPrefix, List.isPrefixOf]
    · have h2 : ¬ c = x := fun e => h e.symm
      simp [HasPrefix, List.isPrefixOf, h, h2]

theorem SplitN2_eq (t : Str) :
    SplitN2 '=' t = if '=' ∈ t then [beforeEq t, afterEq t] else [t] := by
  induction t with
  | nil => simp [SplitN2]
  | cons c cs ih =>
    by_cases hc : c = '='
    · subst hc
      simp [SplitN2, beforeEq, afterEq, List.takeWhile_cons, List.dropWhile_cons]
    · unfold SplitN2
      rw [if_neg hc, ih]
      have h3 : (c != '=') = true := by simp [hc]
      by_cases h : '=' ∈ cs
      · have h2 : '=' ∈ c :: cs := List.mem_cons_of_mem _ h
        simp only [h, h2, if_true, beforeEq, afterEq, List.takeWhile_cons, List.dropWhile_cons, h3]
      · have h2 : ¬ ('=' ∈ c :: cs) := by
          rintro h'
          rcases List.mem_cons.mp h' with h' | h'
          · exact hc h'.symm
          · exact h h'
        simp only [h, h2, if_false]

/-! ## Lemmas: one step of the loader -/

theorem Setenv_eq (env : Env) (k v : Str) :
    Setenv env k v = if settable k v = true then some (bind env k v) else none := by
  unfold Setenv settable bind
  by_cases h1 : k = []
  · simp [h1]
  · by_cases h2 : k.any (fun c => c == '=' || c == NUL) = true
    · simp [h1, h2]
    · by_cases h3 : v.any (fun c => c == NUL) = true
      · simp [h1, h2, h3]
      · simp [h1, h2, h3]

theorem loadDotEnvStep_eq (env : Env) (raw : Str) :
    loadDotEnvStep env raw =
      if ValidLine raw = true ∧ LookupEnv env (lineKey raw) = none ∧
          settable (lineKey raw) (lineValue raw) = true
      then bind env (lineKey raw) (lineValue raw) else env := by
  unfold loadDotEnvStep ValidLine lineKey lineValue
  simp only [HasPrefix_singleton, SplitN2_eq, Setenv_eq]
  by_cases h1 : TrimSpace raw = []
  · simp [h1]
  · by_cases h2 : (TrimSpace raw).head? = some '#'
    · simp [h1, h2]
    · by_cases h3 : '=' ∈ TrimSpace raw
      · by_cases h4 : TrimSpace (beforeEq (TrimSpace raw)) = []
        · simp [h1, h2, h3, h4]
        · cases h5 : LookupEnv env (TrimSpace (beforeEq (TrimSpace raw))) with
          | some w => simp [h1, h2, h3, h4, h5]
          | none =>
            by_cases h6 : settable (TrimSpace (beforeEq (TrimSpace raw)))
                (TrimSpace (afterEq (TrimSpace raw))) = true
            · simp [h1, h2, h3, h4, h5, h6]
            · simp [h1, h2, h3, h4, h5, h6]
      · simp [h1, h2, h3]

theorem loadDotEnvStep_dropCR (env : Env) (l : Str) :
    loadDotEnvStep env (dropCR l) = loadDotEnvStep env l := by
  simp only [loadDotEnvStep, TrimSpace_dropCR]

theorem loadDotEnv_some (content : Str) (env : Env) :
    loadDotEnv (some content) env =
      ((rawLines content).takeWhile tokenFits).foldl loadDotEnvStep env := by
  simp only [loadDotEnv, scannerTokens, List.foldl_map, loadDotEnvStep_dropCR]

theorem IgnoredLine_eq (raw : Str) : IgnoredLine raw = !ValidLine raw := by
  unfold IgnoredLine ValidLine
  by_cases h1 : TrimSpace raw = [] <;> by_cases h2 : (TrimSpace raw).head? = some '#' <;>
    by_cases h3 : '=' ∈ TrimSpace raw <;>
    by_cases h4 : TrimSpace (beforeEq (TrimSpace raw)) = [] <;> simp [h1, h2, h3, h4]

theorem loadDotEnvStep_ignored (env : Env) (raw : Str) (h : IgnoredLine raw = true) :
    loadDotEnvStep env raw = env := by
  rw [IgnoredLine_eq] at h
  rw [loadDotEnvStep_eq]
  have hv : ¬ ValidLine raw = true := by simpa using h
  simp [hv]

theorem eq_not_mem_lineKey (raw : Str) : '=' ∉ lineKey raw := by
  intro h
  have h1 := mem_of_mem_TrimSpace h
  unfold beforeEq at h1
  have h2 := List.mem_takeWhile_imp h1
  simp at h2

theorem settable_of_valid (raw : Str) (hv : ValidLine raw = true)
    (hk : NUL ∉ lineKey raw) (hval : NUL ∉ lineValue raw) :
    settable (lineKey raw) (lineValue raw) = true := by
  have hne : lineKey raw ≠ [] := by
    unfold ValidLine at hv
    simp only [Bool.and_eq_true, decide_eq_true_eq] at hv
    exact hv.2
  have heq := eq_not_mem_lineKey raw
  unfold settable
  simp only [Bool.and_eq_true, decide_eq_true_eq, Bool.not_eq_true', List.any_eq_false,
    Bool.or_eq_true, beq_iff_eq, not_or]
  refine ⟨⟨hne, ?_⟩, ?_⟩
  · intro c hc
    exact ⟨fun e => heq (e ▸ hc), fun e => hk (e ▸ hc)⟩
  · intro c hc e
    exact hval (e ▸ hc)

/-- A step keeps every binding already present. -/
theorem loadDotEnvStep_keeps (env : Env) (raw k v : Str) (h : LookupEnv env k = some v) :
    LookupEnv (loadDotEnvStep env raw) k = some v := by
  rw [loadDotEnvStep_eq]
  split
  · rename_i hc
    have hk : k ≠ lineKey raw := by
      intro e
      rw [e, hc.2.1] at h
      cases h
    unfold LookupEnv bind at *
    simp only [hk, if_false]
    exact h
  · exact h

theorem foldl_keeps (ls : List Str) (env : Env) (k v : Str) (h : LookupEnv env k = some v) :
    LookupEnv (ls.foldl loadDotEnvStep env) k = some v := by
  induction ls generalizing env with
  | nil => exact h
  | cons l ls ih => exact ih _ (loadDotEnvStep_keeps env l k v h)

/-- A step changes no key other than the key of its line. -/
theorem loadDotEnvStep_other (env : Env) (raw k : Str)
    (h : ¬ (ValidLine raw = true ∧ lineKey raw = k)) :
    LookupEnv (loadDotEnvStep env raw) k = LookupEnv env k := by
  rw [loadDotEnvStep_eq]
  split
  · rename_i hc
    have hk : k ≠ lineKey raw := fun e => h ⟨hc.1, e.symm⟩
    unfold LookupEnv bind
    simp only [hk, if_false]
  · rfl

theorem foldl_other (ls : List Str) (env : Env) (k : Str)
    (h : ∀ l ∈ ls, ¬ (ValidLine l = true ∧ lineKey l = k)) :
    LookupEnv (ls.foldl loadDotEnvStep env) k = LookupEnv env k := by
  induction ls generalizing env with
  | nil => rfl
  | cons l ls ih =>
    rw [List.foldl_cons, ih _ (fun l' hl' => h l' (List.mem_cons_of_mem _ hl')),
      loadDotEnvStep_other env l k (h l (List.mem_cons_self _ _))]

/-- A step on a valid line with an unbound, settable key binds the key to the value. -/
theorem loadDotEnvStep_sets (env : Env) (raw : Str) (hv : ValidLine raw = true)
    (hu : LookupEnv env (lineKey raw) = none)
    (hs : settable (lineKey raw) (lineValue raw) = true) :
    LookupEnv (loadDotEnvStep env raw) (lineKey raw) = some (lineValue raw) := by
  rw [loadDotEnvStep_eq, if_pos ⟨hv, hu, hs⟩]
  have hne : lineKey raw ≠ [] := by
    unfold ValidLine at hv
    simp only [Bool.and_eq_true, decide_eq_true_eq] at hv
    exact hv.2
  simp [LookupEnv, bind, hne]

/-! ## Theorems: loadDotEnv -/

/-- The first valid, settable line for an unbound key decides the key's value. -/
theorem foldl_first_assignment (env : Env) (pre post : List Str) (raw : Str)
    (hv : ValidLine raw = true)
    (hu : LookupEnv env (lineKey raw) = none)
    (hs : settable (lineKey raw) (lineValue raw) = true)
    (hpre : ∀ l ∈ pre, ¬ (ValidLine l = true ∧ lineKey l = lineKey raw)) :
    LookupEnv ((pre ++ raw :: post).foldl loadDotEnvStep env) (lineKey raw) =
      some (lineValue raw) := by
  rw [List.foldl_append, List.foldl_cons]
  apply foldl_keeps
  apply loadDotEnvStep_sets _ _ hv _ hs
  rw [foldl_other pre env _ hpre]
  exact hu

/-- When every line of the file fits the scanner's buffer, the scanner delivers
every line, each without its trailing carriage return. -/
theorem scannerTokens_of_fit (content : Str)
    (h : ∀ l ∈ rawLines content, tokenFits l = true) :
    scannerTokens content = (rawLines content).map dropCR := by
  unfold scannerTokens
  rw [List.takeWhile_eq_self_iff.mpr h]

/-- C2: loadDotEnv never overwrites a variable that is already defined, also one
defined with an empty value: whatever the file, the variable keeps its value. -/
theorem loadDotEnv_never_overwrites (file : Option Str) (env : Env) (k v : Str)
    (h : LookupEnv env k = some v) :
    LookupEnv (loadDotEnv file env) k = some v := by
  cases file with
  | none => exact h
  | some content =>
    rw [loadDotEnv_some]
    exact foldl_keeps _ env k v h

/-- C2 witness: a file containing API_URL=http://x, loaded with API_URL=http://y
already set, leaves API_URL at http://y. -/
theorem loadDotEnv_never_overwrites_witness :
    LookupEnv (envOf [("API_URL".toList, "http://y".toList)]) "API_URL".toList =
        some "http://y".toList ∧
    LookupEnv (loadDotEnv (some "API_URL=http://x".toList)
        (envOf [("API_URL".toList, "http://y".toList)])) "API_URL".toList =
        some "http://y".toList :=
  ⟨by decide, loadDotEnv_never_overwrites _ _ _ _ (by decide)⟩

/-- C5: when the file cannot be opened loadDotEnv leaves the environment exactly
as it was; the function has no result through which an error could be reported. -/
theorem loadDotEnv_unopenable (env : Env) : loadDotEnv none env = env := rfl

/-- C3 (amended): for each valid line that loadDotEnv reads from a readable file
(each text its scanner delivers), with key K and value V (the trimmed text before
and after the first `=`, so further `=` characters stay in V): if K is not
defined before the call, no earlier line is a valid line with key K, and neither
K nor V contains a NUL character, then after loadDotEnv K is defined with
value V. -/
theorem loadDotEnv_sets_valid_line (env : Env) (content : Str) (i : Nat) (raw : Str)
    (hi : (scannerTokens content)[i]? = some raw)
    (hv : ValidLine raw = true)
    (hu : LookupEnv env (lineKey raw) = none)
    (hearlier : ∀ l ∈ (scannerTokens content).take i,
      ¬ (ValidLine l = true ∧ lineKey l = lineKey raw))
    (hnul : NUL ∉ lineKey raw ∧ NUL ∉ lineValue raw) :
    LookupEnv (loadDotEnv (some content) env) (lineKey raw) = some (lineValue raw) := by
  obtain ⟨hlt, hget⟩ := List.getElem?_eq_some.mp hi
  have hsplit : scannerTokens content =
      (scannerTokens content).take i ++ raw :: (scannerTokens content).drop (i + 1) := by
    rw [← hget, ← List.drop_eq_getElem_cons hlt, List.take_append_drop]
  unfold loadDotEnv
  simp only
  rw [hsplit]
  exact foldl_first_assignment env _ _ raw hv hu
    (settable_of_valid raw hv hnul.1 hnul.2) hearlier

/-- C3 witness: the third line read from the demo file is the first assignment of
API_URL; it binds API_URL, the later `=` staying in the value. -/
theorem loadDotEnv_sets_valid_line_witness :
    (scannerTokens demoFile)[2]? = some "API_URL = http://x?a=b".toList ∧
    lineKey "API_URL = http://x?a=b".toList = "API_URL".toList ∧
    lineValue "API_URL = http://x?a=b".toList = "http://x?a=b".toList ∧
    LookupEnv (loadDotEnv (some demoFile) emptyEnv) (lineKey "API_URL = http://x?a=b".toList) =
      some (lineValue "API_URL = http://x?a=b".toList) :=
  ⟨by decide, by decide, by decide,
    loadDotEnv_sets_valid_line emptyEnv demoFile 2 "API_URL = http://x?a=b".toList
      (by decide) (by decide) (by decide) (by decide) (by decide)⟩

/-- C9 (amended): when the first valid line for K among the lines that loadDotEnv
reads from a file assigns V (possibly empty), K is not defined before the call,
and neither K nor V contains a NUL character, then K has value V after
loadDotEnv, whatever the later lines assign. -/
theorem loadDotEnv_first_occurrence_wins (env : Env) (content : Str)
    (pre post : List Str) (raw : Str)
    (hlines : scannerTokens content = pre ++ raw :: post)
    (hv : ValidLine raw = true)
    (hfirst : ∀ l ∈ pre, ¬ (ValidLine l = true ∧ lineKey l = lineKey raw))
    (hu : LookupEnv env (lineKey raw) = none)
    (hnul : NUL ∉ lineKey raw ∧ NUL ∉ lineValue raw) :
    LookupEnv (loadDotEnv (some content) env) (lineKey raw) = some (lineValue raw) := by
  unfold loadDotEnv
  simp only
  rw [hlines]
  exact foldl_first_assignment env pre post raw hv hu
    (settable_of_valid raw hv hnul.1 hnul.2) hfirst

/-- C9 witness: in the demo file API_URL is assigned twice and the first line wins;
the later lines assign API_URL again and give VERSION the empty string. -/
theorem loadDotEnv_first_occurrence_wins_witness :
    scannerTokens demoFile =
      ["# demo".toList, []] ++ "API_URL = http://x?a=b".toList ::
        ["API_URL=other".toList, "VERSION=".toList] ∧
    LookupEnv (loadDotEnv (some demoFile) emptyEnv) (lineKey "API_URL = http://x?a=b".toList) =
      some (lineValue "API_URL = http://x?a=b".toList) :=
  ⟨by decide,
    loadDotEnv_first_occurrence_wins emptyEnv demoFile ["# demo".toList, []]
      ["API_URL=other".toList, "VERSION=".toList] "API_URL = http://x?a=b".toList
      (by decide) (by decide) (by decide) (by decide) (by decide)⟩

/-! ## Lemmas: lines of a file -/

theorem rawLines_append_newline (l rest : Str) (h : '\n' ∉ l) :
    rawLines (l ++ '\n' :: rest) = l :: rawLines rest := by
  induction l with
  | nil => simp [rawLines]
  | cons c l ih =>
    have hc : c ≠ '\n' := fun e => h (e ▸ List.mem_cons_self _ _)
    have hl : '\n' ∉ l := fun e => h (List.mem_cons_of_mem _ e)
    rw [List.cons_append, rawLines, if_neg hc, ih hl]

theorem newline_not_mem_rawLines (s : Str) : ∀ l ∈ rawLines s, '\n' ∉ l := by
  induction s with
  | nil => intro l hl; simp [rawLines] at hl
  | cons c cs ih =>
    intro l hl
    unfold rawLines at hl
    by_cases hc : c = '\n'
    · rw [if_pos hc] at hl
      rcases List.mem_cons.mp hl with h | h
      · rw [h]; exact List.not_mem_nil _
      · exact ih l h
    · rw [if_neg hc] at hl
      cases hr : rawLines cs with
      | nil =>
        rw [hr] at hl
        rw [List.mem_singleton.mp hl]
        intro h
        exact hc (List.mem_singleton.mp h).symm
      | cons l0 ls =>
        rw [hr] at hl ih
        rcases List.mem_cons.mp hl with h | h
        · rw [h]
          intro h'
          rcases List.mem_cons.mp h' with h' | h'
          · exact hc h'.symm
          · exact ih l0 (List.mem_cons_self _ _) h'
        · exact ih l (List.mem_cons_of_mem _ h)

theorem rawLines_joinLines (ls : List Str) (h : ∀ l ∈ ls, '\n' ∉ l) :
    rawLines (joinLines ls) = ls := by
  induction ls with
  | nil => rfl
  | cons l ls ih =>
    have e : joinLines (l :: ls) = l ++ '\n' :: joinLines ls := by
      simp [joinLines, List.flatMap_cons]
    rw [e, rawLines_append_newline l _ (h l (List.mem_cons_self _ _)),
      ih (fun l' hl' => h l' (List.mem_cons_of_mem _ hl'))]

theorem rawLines_removeIgnored (content : Str) :
    rawLines (removeIgnored content) =
      (rawLines content).filter (fun l => !IgnoredLine l) := by
  unfold removeIgnored
  apply rawLines_joinLines
  intro l hl
  exact newline_not_mem_rawLines content l (List.mem_of_mem_filter hl)

/-- The loop changes nothing on ignored lines: running it over a list of lines
gives the same environment as running it over the list without its ignored lines. -/
theorem foldl_filter_ignored (ls : List Str) (env : Env) :
    (ls.filter (fun l => !IgnoredLine l)).foldl loadDotEnvStep env =
      ls.foldl loadDotEnvStep env := by
  induction ls generalizing env with
  | nil => rfl
  | cons l ls ih =>
    by_cases hi : IgnoredLine l = true
    · simp only [List.filter_cons, hi, Bool.not_true, Bool.false_eq_true, if_false,
        List.foldl_cons, loadDotEnvStep_ignored env l hi]
      exact ih env
    · have hi' : (!IgnoredLine l) = true := by simpa using hi
      simp only [List.filter_cons, hi', if_true, List.foldl_cons]
      exact ih _

/-! ## Idempotence -/

theorem loadDotEnvStep_done (env : Env) (raw : Str) :
    ¬ (ValidLine raw = true ∧ LookupEnv (loadDotEnvStep env raw) (lineKey raw) = none ∧
        settable (lineKey raw) (lineValue raw) = true) := by
  rintro ⟨hv, hu, hs⟩
  by_cases h : LookupEnv env (lineKey raw) = none
  · rw [loadDotEnvStep_sets env raw hv h hs] at hu
    cases hu
  · cases hl : LookupEnv env (lineKey raw) with
    | none => exact h hl
    | some w =>
      rw [loadDotEnvStep_keeps env raw _ w hl] at hu
      cases hu

theorem done_step (env : Env) (raw u : Str)
    (h : ¬ (ValidLine raw = true ∧ LookupEnv env (lineKey raw) = none ∧
        settable (lineKey raw) (lineValue raw) = true)) :
    ¬ (ValidLine raw = true ∧ LookupEnv (loadDotEnvStep env u) (lineKey raw) = none ∧
        settable (lineKey raw) (lineValue raw) = true) := by
  rintro ⟨hv, hu, hs⟩
  cases hl : LookupEnv env (lineKey raw) with
  | none => exact h ⟨hv, hl, hs⟩
  | some w =>
    rw [loadDotEnvStep_keeps env u _ w hl] at hu
    cases hu

theorem done_foldl (ls : List Str) (env : Env) (raw : Str)
    (h : ¬ (ValidLine raw = true ∧ LookupEnv env (lineKey raw) = none ∧
        settable (lineKey raw) (lineValue raw) = true)) :
    ¬ (ValidLine raw = true ∧ LookupEnv (ls.foldl loadDotEnvStep env) (lineKey raw) = none ∧
        settable (lineKey raw) (lineValue raw) = true) := by
  induction ls generalizing env with
  | nil => exact h
  | cons l ls ih => exact ih _ (done_step env raw l h)

theorem foldl_all_done (ls : List Str) (env : Env) :
    ∀ raw ∈ ls,
      ¬ (ValidLine raw = true ∧ LookupEnv (ls.foldl loadDotEnvStep env) (lineKey raw) = none ∧
        settable (lineKey raw) (lineValue raw) = true) := by
  induction ls generalizing env with
  | nil => intro raw hraw; cases hraw
  | cons l ls ih =>
    intro raw hraw
    rw [List.foldl_cons]
    rcases List.mem_cons.mp hraw with h | h
    · subst h
      exact done_foldl ls _ raw (loadDotEnvStep_done env raw)
    · exact ih _ raw h

theorem foldl_fixed (ls : List Str) (env : Env)
    (h : ∀ raw ∈ ls,
      ¬ (ValidLine raw = true ∧ LookupEnv env (lineKey raw) = none ∧
        settable (lineKey raw) (lineValue raw) = true)) :
    ls.foldl loadDotEnvStep env = env := by
  induction ls with
  | nil => rfl
  | cons l ls ih =>
    rw [List.foldl_cons, loadDotEnvStep_eq, if_neg (h l (List.mem_cons_self _ _))]
    exact ih (fun raw hraw => h raw (List.mem_cons_of_mem _ hraw))

/-- C10: loadDotEnv is idempotent: loading the same file a second time leaves the
environment exactly as it was after the first load. -/
theorem loadDotEnv_idempotent (file : Option Str) (env : Env) :
    loadDotEnv file (loadDotEnv file env) = loadDotEnv file env := by
  cases file with
  | none => rfl
  | some content =>
    rw [loadDotEnv_some, loadDotEnv_some]
    exact foldl_fixed _ _ (foldl_all_done _ env)


/-! ## A line that does not fit the scanner, values that cannot be set -/

theorem utf8Len_replicate (n : Nat) (c : Char) :
    utf8Len (List.replicate n c) = n * c.utf8Size := by
  induction n with
  | zero => simp [utf8Len]
  | succ n ih =>
    unfold utf8Len at ih ⊢
    rw [List.replicate_succ, List.map_cons, List.sum_cons, ih]
    ring

theorem utf8Len_cons (c : Char) (s : Str) : utf8Len (c :: s) = c.utf8Size + utf8Len s := by
  simp only [utf8Len, List.map_cons, List.sum_cons]

theorem longComment_eq : longComment = '#' :: List.replicate 65535 'x' := rfl

theorem tokenFits_longComment : tokenFits longComment = false := by
  have h : utf8Len longComment = 65536 := by
    have h1 : utf8Len longComment = '#'.utf8Size + utf8Len (List.replicate 65535 'x') := by
      rw [longComment_eq, utf8Len_cons]
    have h2 : '#'.utf8Size = 1 := by decide
    have h3 : 'x'.utf8Size = 1 := by decide
    rw [h1, utf8Len_replicate, h2, h3]
  unfold tokenFits
  rw [h]
  decide

theorem newline_not_mem_longComment : '\n' ∉ longComment := by
  intro h
  rw [longComment_eq] at h
  rcases List.mem_cons.mp h with h | h
  · exact absurd h (by decide)
  · exact absurd (List.eq_of_mem_replicate h) (by decide)

theorem IgnoredLine_longComment : IgnoredLine longComment = true := by
  have h : (TrimSpace longComment).head? = some '#' := by
    rw [longComment_eq]
    exact head?_TrimSpace_cons '#' (List.replicate 65535 'x') (by decide)
  unfold IgnoredLine
  simp only [h, decide_True, Bool.or_true, Bool.true_or]

theorem rawLines_longFile : rawLines longFile = [longComment, "KEY=1".toList] := by
  unfold longFile
  rw [rawLines_append_newline _ _ newline_not_mem_longComment]
  have h : rawLines "KEY=1".toList = ["KEY=1".toList] := by decide
  rw [h]

theorem loadDotEnv_longFile (env : Env) : loadDotEnv (some longFile) env = env := by
  rw [loadDotEnv_some, rawLines_longFile, List.takeWhile_cons, tokenFits_longComment]
  rfl

theorem removeIgnored_longFile : removeIgnored longFile = "KEY=1\n".toList := by
  have h : IgnoredLine "KEY=1".toList = false := by decide
  unfold removeIgnored
  rw [rawLines_longFile]
  simp only [List.filter_cons, IgnoredLine_longComment, h, Bool.not_true, Bool.not_false,
    Bool.false_eq_true, if_false, if_true, List.filter_nil]
  decide

/-- C3 (as stated, refuted): the only line of the file is valid, its key is unbound
before the call and there is no earlier line, but its value holds a NUL character,
Setenv rejects it and the key is still unbound afterwards. -/
theorem setsValidLines_fails : ¬ SetsValidLines emptyEnv nulFile := by
  intro h
  have h1 := h 0 nulFile (by decide) (by decide) (by decide) (by decide)
  exact absurd h1 (by decide)

/-- C4 (code defect): on a file that starts with a comment line of 65536 bytes
followed by KEY=1, the scanner stops at the comment line and loadDotEnv leaves
KEY unbound, while loading the same file without the comment line binds KEY to 1;
so the two environments differ. -/
theorem loadDotEnv_stops_at_long_comment :
    rawLines longFile = [longComment, "KEY=1".toList] ∧
    IgnoredLine longComment = true ∧
    removeIgnored longFile = "KEY=1\n".toList ∧
    LookupEnv (loadDotEnv (some longFile) emptyEnv) "KEY".toList = none ∧
    LookupEnv (loadDotEnv (some (removeIgnored longFile)) emptyEnv) "KEY".toList =
      some "1".toList ∧
    loadDotEnv (some (removeIgnored longFile)) emptyEnv ≠ loadDotEnv (some longFile) emptyEnv := by
  have hshort : LookupEnv (loadDotEnv (some "KEY=1\n".toList) emptyEnv) "KEY".toList =
      some "1".toList := by decide
  have hnone : LookupEnv emptyEnv "KEY".toList = none := by decide
  refine ⟨rawLines_longFile, IgnoredLine_longComment, removeIgnored_longFile, ?_, ?_, ?_⟩
  · rw [loadDotEnv_longFile]
    exact hnone
  · rw [removeIgnored_longFile]
    exact hshort
  · rw [loadDotEnv_longFile, removeIgnored_longFile]
    intro h
    rw [h, hnone] at hshort
    cases hshort

/-- C9 (as stated, refuted): the first valid line for KEY assigns a value holding
a NUL character, Setenv rejects it, and the second line for KEY wins. -/
theorem firstOccurrenceWins_fails : ¬ FirstOccurrenceWins emptyEnv nulThenPlainFile := by
  intro h
  have h1 := h [] ["KEY=1".toList] "KEY=\x00".toList (by decide) (by decide) (by decide)
    (by decide)
  exact absurd h1 (by decide)

end ServerCompass
